import Mathlib

/-!
# Verification of the TTS-Extension core against its specification

Shallow embedding of the core components of the browser TTS extension:

* `AudioCache` (src/src/audio_cache.ts): content-addressed audio cache with
  hit/miss statistics, size-capped and age-based eviction.
* `splitTextIntoChunks` (src/src/background.ts): sentence/word chunker.
* `synthesizeAndPlay` / `stopPlayback` / `startPlayback` (src/src/background.ts):
  the playback pipeline, modelled as explicit state passing with an event trace.
* `retryWithBackoff` (src/performance_optimization.ts): retry helper with
  exponential backoff.

Machine integers are modelled as `Int`/`Nat` with explicit wrap-around where the
JavaScript source performs 32-bit truncation; timestamps are milliseconds as
`Nat`; audio durations and playback speeds are `ℚ`.  Effects (network calls,
messages sent to the UI, highlight requests) are reified as an `Event` trace.
-/

namespace TTS

/-! ## Audio cache (src/src/audio_cache.ts)

The JavaScript cache is a `Map<string, CachedAudio>`; a `Map` preserves
insertion order and has at most one entry per key, so it is modelled as an
association list with unique keys, where `mapSet` on an existing key replaces
the value in place and otherwise appends. -/

/-- JavaScript `ToInt32`: wrap an integer into the range `[-2^31, 2^31)`. -/
def toInt32 (x : Int) : Int :=
  (x + 2 ^ 31) % 2 ^ 32 - 2 ^ 31

/-- One step of `hashText`'s loop.  The source computes
`hash = ((hash << 5) - hash) + char; hash = hash & hash` on JavaScript numbers;
`h << 5` is `ToInt32 (h * 32)` and `x & x` is `ToInt32 x`, and since
`ToInt32 (ToInt32 (h * 32) - h + c) = ToInt32 (h * 31 + c)` (the inner and outer
truncations agree modulo `2^32`), the step is 32-bit `h * 31 + c`. -/
def hashStep (h : Int) (c : Char) : Int :=
  toInt32 (h * 31 + (c.toNat : Int))

/-- Source `AudioCache.hashText`: 31-based rolling hash over the UTF-16 units of the
text, truncated to a signed 32-bit integer at every step.  (All texts used in
concrete statements are ASCII, where UTF-16 units and `Char`s coincide.)
The source renders the hash with `toString(16)`, which is injective on the
integer value, so the hash is kept as an `Int`. -/
def hashText (text : String) : Int :=
  text.data.foldl hashStep 0

/-- A cache key.  The source builds the string `` `${voice}_${speed}_${textHash}` ``;
since the rendering of `speed` (a JavaScript number) and of the hash contain no
underscore, that string is an injective encoding of the triple
(voice, speed, text hash), which we use directly. -/
abbrev CacheKey := String × ℚ × Int

/-- The `CachedAudio` record stored in the cache. -/
structure CachedAudio where
  audioContent : String
  timestamp : Nat
  voice : String
  speed : ℚ
  textHash : Int
deriving DecidableEq, Repr

/-- The `AudioCache` instance state: the backing `Map` plus the `CacheStats`
fields and the configured bounds. -/
structure CacheState where
  cache : List (CacheKey × CachedAudio)
  maxCacheSize : Nat
  maxCacheAge : Nat
  hits : Nat
  misses : Nat
  size : Nat
  lastCleanup : Nat
deriving DecidableEq, Repr

/-- Source `Map.get`. -/
def mapLookup (k : CacheKey) : List (CacheKey × CachedAudio) → Option CachedAudio
  | [] => none
  | (k', v) :: rest => if k' = k then some v else mapLookup k rest

/-- Source `Map.set`: replace in place if the key is present, else append (a JavaScript
`Map` keeps insertion order and updating a key keeps its position). -/
def mapSet (k : CacheKey) (v : CachedAudio) :
    List (CacheKey × CachedAudio) → List (CacheKey × CachedAudio)
  | [] => [(k, v)]
  | (k', v') :: rest => if k' = k then (k, v) :: rest else (k', v') :: mapSet k v rest

/-- Source `Map.delete`: remove the entry with the given key (keys are unique in a `Map`). -/
def mapDelete (k : CacheKey) :
    List (CacheKey × CachedAudio) → List (CacheKey × CachedAudio)
  | [] => []
  | (k', v') :: rest => if k' = k then rest else (k', v') :: mapDelete k rest

/-- Stable insertion by timestamp: insert before the first entry with a
strictly later-or-equal... an entry is placed after all strictly earlier
timestamps and before equal ones, matching `Array.prototype.sort` (stable) with
comparator `(a, b) => a[1].timestamp - b[1].timestamp`. -/
def insertByTs (e : CacheKey × CachedAudio) :
    List (CacheKey × CachedAudio) → List (CacheKey × CachedAudio)
  | [] => [e]
  | f :: rest =>
    if e.2.timestamp ≤ f.2.timestamp then e :: f :: rest else f :: insertByTs e rest

/-- Stable sort ascending by `timestamp`, as used by `AudioCache.cleanup`. -/
def sortByTimestamp : List (CacheKey × CachedAudio) → List (CacheKey × CachedAudio)
  | [] => []
  | e :: rest => insertByTs e (sortByTimestamp rest)

/-- One hour in milliseconds (`hourInMs`). -/
def hourInMs : Nat := 3600000

/-- Source `AudioCache.cleanup`, with the current clock passed explicitly.
`Math.floor(this.maxCacheSize * 0.2)` equals `maxCacheSize / 5` in `Nat`
arithmetic: the double product `n * 0.2` lands in `[n/5, n/5 + ulp]`, so its
floor is `⌊n / 5⌋` for every realistic size. -/
def cleanup (now : Nat) (s : CacheState) : CacheState :=
  if now - s.lastCleanup < hourInMs ∧ s.cache.length < s.maxCacheSize then s
  else
    let s1 := { s with lastCleanup := now }
    let s2 :=
      if s1.cache.length ≥ s1.maxCacheSize then
        let sortedByAge := sortByTimestamp s1.cache
        let itemsToRemove := max 1 (s1.maxCacheSize / 5)
        let victims := (sortedByAge.take itemsToRemove).map Prod.fst
        { s1 with cache := victims.foldl (fun c k => mapDelete k c) s1.cache }
      else s1
    let cache' := s2.cache.filter fun e => ¬ (now - e.2.timestamp > s2.maxCacheAge)
    { s2 with cache := cache', size := cache'.length }

/-- Source `AudioCache.generateKey`. -/
def generateKey (text voice : String) (speed : ℚ) : CacheKey :=
  (voice, speed, hashText text)

/-- Source `AudioCache.get`.  Returns the cached audio (if present and unexpired) and
the successor state.  `Date.now() - timestamp <= maxCacheAge` is modelled with
truncated `Nat` subtraction, which agrees with the JavaScript comparison also
when the clock runs backwards (both sides then accept the entry). -/
def get (now : Nat) (text voice : String) (speed : ℚ) (s : CacheState) :
    Option String × CacheState :=
  let key := generateKey text voice speed
  match mapLookup key s.cache with
  | some cachedItem =>
    if now - cachedItem.timestamp ≤ s.maxCacheAge then
      (some cachedItem.audioContent, { s with hits := s.hits + 1 })
    else
      let cache' := mapDelete key s.cache
      (none, { s with cache := cache', size := cache'.length, misses := s.misses + 1 })
  | none => (none, { s with misses := s.misses + 1 })

/-- Source `AudioCache.set`: run `cleanup`, then store the new item and update the
size statistic. -/
def set (now : Nat) (text voice : String) (speed : ℚ) (audioContent : String)
    (s : CacheState) : CacheState :=
  let key := generateKey text voice speed
  let s1 := cleanup now s
  let cache' := mapSet key
    { audioContent := audioContent, timestamp := now, voice := voice,
      speed := speed, textHash := hashText text } s1.cache
  { s1 with cache := cache', size := cache'.length }

/-- A fresh cache as built by `new AudioCache({maxSize})` at time `t0`
(`maxAge` defaults to 24 hours; `lastCleanup` is initialised to `Date.now()`). -/
def initCache (maxSize : Nat) (t0 : Nat) : CacheState :=
  { cache := [], maxCacheSize := maxSize, maxCacheAge := 24 * 60 * 60 * 1000,
    hits := 0, misses := 0, size := 0, lastCleanup := t0 }

/-- A `set` request, used to state bulk-insertion properties. -/
structure SetReq where
  text : String
  voice : String
  speed : ℚ
  content : String
deriving DecidableEq, Repr

/-- Key of a `set` request. -/
def SetReq.key (r : SetReq) : CacheKey := generateKey r.text r.voice r.speed

/-- The `CachedAudio` entry that `set` stores for a request at time `now`. -/
def SetReq.entry (now : Nat) (r : SetReq) : CacheKey × CachedAudio :=
  (r.key, { audioContent := r.content, timestamp := now, voice := r.voice,
            speed := r.speed, textHash := hashText r.text })

/-- Perform a sequence of `set` calls at a fixed time. -/
def insertAll (now : Nat) (reqs : List SetReq) (s : CacheState) : CacheState :=
  reqs.foldl (fun acc r => set now r.text r.voice r.speed r.content acc) s

/-! ## Chunker (`splitTextIntoChunks`, src/src/background.ts)

The source splits text into sentences with
`text.replace(/([.?!])\s*(?=[A-Z])/g, "$1|").split("|")` and then greedily
packs sentences (falling back to word packing for oversized sentences) against
the byte bound `MAX_TTS_BYTES = 4800`.  The bound is kept as a parameter
`maxBytes` (the spec's §4.1 contract); the extension instantiates it at 4800.
String `.length` is the number of UTF-16 units; for the BMP texts considered
here it coincides with the number of `Char`s. -/

/-- JavaScript `\s` on the character classes occurring here (ASCII whitespace
plus NBSP). -/
def isJsWs (c : Char) : Bool :=
  c = ' ' ∨ c = '\t' ∨ c = '\n' ∨ c = '\r' ∨ c = '\x0b' ∨ c = '\x0c' ∨ c = '\u00a0'

/-- The character class `[.?!]`. -/
def isSentencePunct (c : Char) : Bool :=
  c = '.' ∨ c = '?' ∨ c = '!'

/-- The character class `[A-Z]`. -/
def isCapital (c : Char) : Bool :=
  'A' ≤ c ∧ c ≤ 'Z'

/-- Worker for `markSentences`; the fuel argument (instantiated with the input
length, which bounds the recursion depth) makes the recursion structural so
that the definition evaluates inside the kernel. -/
def markSentencesGo : Nat → List Char → List Char
  | 0, _ => []
  | _, [] => []
  | fuel + 1, c :: rest =>
    if isSentencePunct c then
      match rest.dropWhile (fun a => isJsWs a) with
      | d :: rest2 =>
        if isCapital d then c :: '|' :: markSentencesGo fuel (d :: rest2)
        else c :: markSentencesGo fuel rest
      | [] => c :: markSentencesGo fuel rest
    else c :: markSentencesGo fuel rest

/-- Source `text.replace(/([.?!])\s*(?=[A-Z])/g, "$1|")`: after a sentence punctuation
mark whose next non-whitespace character is a capital letter, drop the
whitespace and insert a `|` marker (the lookahead does not consume the capital,
and the greedy `\s*` must end exactly before a non-whitespace character for the
lookahead to succeed). -/
def markSentences (cs : List Char) : List Char :=
  markSentencesGo cs.length cs

/-- Source `.split("|")` on a character list (JavaScript semantics: every `|` is a
separator and empty segments are kept; the empty string splits to `[""]`). -/
def splitOnBarGo : List Char → List Char → List String
  | [], cur => [String.mk cur.reverse]
  | c :: rest, cur =>
    if c = '|' then String.mk cur.reverse :: splitOnBarGo rest []
    else splitOnBarGo rest (c :: cur)

/-- Source `.split("|")`. -/
def splitOnBar (s : String) : List String :=
  splitOnBarGo s.data []

/-- Worker for `jsSplitWs`, fuelled like `markSentencesGo`. -/
def jsSplitWsGo : Nat → List Char → List Char → List String
  | 0, _, cur => [String.mk cur.reverse]
  | _, [], cur => [String.mk cur.reverse]
  | fuel + 1, c :: rest, cur =>
    if isJsWs c then
      String.mk cur.reverse :: jsSplitWsGo fuel (rest.dropWhile (fun a => isJsWs a)) []
    else jsSplitWsGo fuel rest (c :: cur)

/-- Source `sentence.split(/\s+/)` (JavaScript semantics: maximal whitespace runs are
separators; a leading or trailing run contributes an empty segment, and the
empty string splits to `[""]`). -/
def jsSplitWs (s : String) : List String :=
  jsSplitWsGo s.data.length s.data []

/-- The inner word-packing loop of `splitTextIntoChunks` (run when a single
sentence exceeds the bound): state is the emitted chunks plus the running
`currentChunk`.  `if (currentChunk)` in the source is JavaScript string
truthiness, i.e. non-emptiness. -/
def packWords (maxBytes : Nat) :
    List String → List String → String → List String × String
  | [], chunks, currentChunk => (chunks, currentChunk)
  | word :: words, chunks, currentChunk =>
    if currentChunk.length + word.length + 1 > maxBytes then
      packWords maxBytes words (chunks ++ [currentChunk]) word
    else
      packWords maxBytes words chunks
        (currentChunk ++ (if currentChunk = "" then "" else " ") ++ word)

/-- The sentence-level loop of `splitTextIntoChunks`, including the trailing
flush of a non-empty `currentChunk`. -/
def accumulateSentences (maxBytes : Nat) :
    List String → List String → String → List String
  | [], chunks, currentChunk =>
    if currentChunk = "" then chunks else chunks ++ [currentChunk]
  | sentence :: rest, chunks, currentChunk =>
    if currentChunk.length + sentence.length > maxBytes then
      let chunks1 := if currentChunk = "" then chunks else chunks ++ [currentChunk]
      if sentence.length > maxBytes then
        let words := jsSplitWs sentence
        let packed := packWords maxBytes words chunks1 ""
        accumulateSentences maxBytes rest packed.1 packed.2
      else
        accumulateSentences maxBytes rest chunks1 sentence
    else
      accumulateSentences maxBytes rest chunks
        (currentChunk ++ (if currentChunk = "" then "" else " ") ++ sentence)

/-- Source `splitTextIntoChunks`, generic in the byte bound. -/
def splitTextIntoChunksGen (maxBytes : Nat) (text : String) : List String :=
  let sentences := splitOnBar (String.mk (markSentences text.data))
  accumulateSentences maxBytes sentences [] ""

/-- Source constant `MAX_TTS_BYTES`. -/
def MAX_TTS_BYTES : Nat := 4800

/-- Source `splitTextIntoChunks` as compiled into the extension. -/
def splitTextIntoChunks (text : String) : List String :=
  splitTextIntoChunksGen MAX_TTS_BYTES text

/-! ## Playback pipeline (src/src/background.ts)

`synthesizeAndPlay`, `startPlayback` and `stopPlayback` mutate the module-level
variables `audioQueue`, `isPlayingQueue`, `currentChunkIndex`, `totalDuration`,
`currentTime` and `currentAudio`; these are gathered into `PlayState`.
Side effects are reified into an `Event` trace:

* `apiCall t` — a `fetch` issued by `callGoogleTTSAPI` for text `t` (both the
  API-key test request and the per-chunk requests);
* `cacheGet`/`cacheSet` — calls to `audioCache.get`/`audioCache.set` around a
  synthesis request (the imported `audioCache` is never invoked on the
  synthesis path, so the pipeline emits none of these);
* `ttsProgress`/`ttsError`/`ttsWarning`/`playbackStarted`/`playbackStopped` —
  `chrome.runtime.sendMessage` notifications (payload texts are omitted);
* `clearHighlights` — the `clearHighlights` message sent to the active tab.

Network outcomes are oracles: `testOk` for the API-key test request, and
`synth i` for chunk `i`, where `none` means the request threw, and
`some measured` means success with `measured : Option ℚ` the value of
`audio.duration` if it loaded (`none` when the metadata wait timed out and the
word-count estimate is used).  The single-process JavaScript event loop runs
message handlers only while `synthesizeAndPlay` is suspended at an `await`,
which `runLoad` below makes explicit. -/

/-- An element of `audioQueue` (interface `AudioChunk`); the
`HTMLAudioElement` handle is abstracted away and `lastProgressUpdate` is not
modelled. -/
structure AudioChunk where
  text : String
  startTime : ℚ
  endTime : ℚ
  isPlaying : Bool
deriving DecidableEq, Repr

/-- The module-level playback state of background.ts.  `currentAudioSome`
records whether `currentAudio` is non-null. -/
structure PlayState where
  audioQueue : List AudioChunk
  isPlayingQueue : Bool
  currentChunkIndex : Nat
  totalDuration : ℚ
  currentTime : ℚ
  currentAudioSome : Bool
deriving DecidableEq, Repr

/-- Observable side effects of the pipeline. -/
inductive Event where
  | apiCall (text : String)
  | cacheGet (text : String)
  | cacheSet (text : String)
  | ttsProgress (currentChunk totalChunks : Nat)
  | ttsError
  | ttsWarning
  | playbackStarted (totalDuration : ℚ) (totalChunks : Nat)
  | playbackStopped
  | clearHighlights
deriving DecidableEq, Repr

/-- Does the event report that playback started? -/
def Event.isStarted : Event → Bool
  | .playbackStarted _ _ => true
  | _ => false

/-- Is the event a synthesis API request? -/
def Event.isApiCall : Event → Bool
  | .apiCall _ => true
  | _ => false

/-- Is the event a cache read? -/
def Event.isCacheGet : Event → Bool
  | .cacheGet _ => true
  | _ => false

/-- Is the event a cache store? -/
def Event.isCacheSet : Event → Bool
  | .cacheSet _ => true
  | _ => false

/-- Source `stopPlayback`: set `isPlayingQueue = false`; pause and release
`currentAudio`; send `clearHighlights` to the active tab (modelled with an
active tab present, so the message is sent exactly once per call); reassign
`audioQueue = []`; send `playbackStopped`.  The queue indices and the time
accumulators are not touched. -/
def stopPlayback (s : PlayState) : PlayState × List Event :=
  ({ s with isPlayingQueue := false, currentAudioSome := false, audioQueue := [] },
   [Event.clearHighlights, Event.playbackStopped])

/-- The state reset at the start of `synthesizeAndPlay` (directly after its
internal `stopPlayback()` call): clear the queue, indices and times, and mark
the queue as playing. -/
def resetForRead (s : PlayState) : PlayState :=
  { s with audioQueue := [], currentChunkIndex := 0, totalDuration := 0,
           currentTime := 0, isPlayingQueue := true }

/-- The duration estimate `chunk.split(/\s+/).length * 0.3 / speed` used when
`audio.duration` is unavailable. -/
def estimateDuration (chunk : String) (speed : ℚ) : ℚ :=
  ((jsSplitWs chunk).length : ℚ) * (3 / 10) / speed

/-- One iteration of the synthesis loop of `synthesizeAndPlay` for chunk `i`
(0-based) of `totalChunks`: report progress, call the API, wait for duration
metadata, and append the finished `AudioChunk` to the queue.  An empty chunk
text is rejected by `callGoogleTTSAPI` before the request is issued; a failed
request sends `ttsError` (from `callGoogleTTSAPI`'s catch) and the loop's own
catch then skips the chunk without any state change. -/
def chunkStep (speed : ℚ) (i totalChunks : Nat) (chunk : String)
    (outcome : Option (Option ℚ)) (s : PlayState) : PlayState × List Event :=
  if chunk = "" then
    (s, [Event.ttsProgress (i + 1) totalChunks, Event.ttsError])
  else
    match outcome with
    | none => (s, [Event.ttsProgress (i + 1) totalChunks, Event.apiCall chunk, Event.ttsError])
    | some measured =>
      let audioDuration :=
        match measured with
        | some d => d
        | none => estimateDuration chunk speed
      ({ s with
          audioQueue := s.audioQueue ++
            [{ text := chunk, startTime := s.totalDuration,
               endTime := s.totalDuration + audioDuration, isPlaying := false }],
          totalDuration := s.totalDuration + audioDuration },
       [Event.ttsProgress (i + 1) totalChunks, Event.apiCall chunk])

/-- The `for` loop of `synthesizeAndPlay` over the text chunks, run to
completion without interleaved message handling. -/
def synthLoop (speed : ℚ) (totalChunks : Nat) (synth : Nat → Option (Option ℚ)) :
    List String → Nat → PlayState → PlayState × List Event
  | [], _, s => (s, [])
  | chunk :: rest, i, s =>
    let step := chunkStep speed i totalChunks chunk (synth i) s
    let restRun := synthLoop speed totalChunks synth rest (i + 1) step.1
    (restRun.1, step.2 ++ restRun.2)

/-- Source `startPlayback`: warn on an empty queue; otherwise set
`isPlayingQueue = true`, rewind `currentChunkIndex` to 0, and announce
`playbackStarted` with the accumulated total duration and the queue length.
(The subsequent `playCurrentChunk()` chain is outside this model.) -/
def startPlayback (s : PlayState) : PlayState × List Event :=
  if s.audioQueue.length = 0 then (s, [Event.ttsWarning])
  else
    ({ s with isPlayingQueue := true, currentChunkIndex := 0 },
     [Event.playbackStarted s.totalDuration s.audioQueue.length])

/-- The tail of `synthesizeAndPlay` after the loop:
`if (audioQueue.length > 0) startPlayback(); else` report failure. -/
def finishLoad (s : PlayState) : PlayState × List Event :=
  if s.audioQueue.length > 0 then startPlayback s
  else (s, [Event.ttsError])

/-- Source `synthesizeAndPlay(text, voice, speed)` (the `autoDetectLanguage = false`
path) as a function of the network oracles: validate inputs, stop any previous
playback, reset the state, issue the API-key test request on `text` (truncated
to its first 50 UTF-16 units when longer than 100), split the text into chunks,
synthesize every chunk in order, and only then start playback.  The highlight
content-script injection performs no modelled effect. -/
def synthesizeAndPlay (text voice : String) (speed : ℚ) (apiKeySet : Bool)
    (testOk : Bool) (synth : Nat → Option (Option ℚ)) (s : PlayState) :
    PlayState × List Event :=
  if text = "" then (s, [Event.ttsError])
  else if voice = "" then (s, [Event.ttsError])
  else if ¬apiKeySet then (s, [Event.ttsError])
  else
    let stopped := stopPlayback s
    let s1 := resetForRead stopped.1
    let testText := if text.length > 100 then String.mk (text.data.take 50) else text
    if ¬testOk then
      (s1, stopped.2 ++ [Event.apiCall testText, Event.ttsError])
    else
      let chunks := splitTextIntoChunks text
      if chunks.length = 0 then
        (s1, stopped.2 ++ [Event.apiCall testText, Event.ttsError])
      else
        let loopRun := synthLoop speed chunks.length synth chunks 0 s1
        let fin := finishLoad loopRun.1
        (fin.1, stopped.2 ++ [Event.apiCall testText] ++ loopRun.2 ++ fin.2)

/-- A schedulable action during the `Loading` phase: either the continuation of
the synthesis loop for one chunk, or the delivery of a `stopReading` message.
Message handlers run only while the loop is suspended at an `await`, i.e.
between chunk iterations. -/
inductive LoadAct where
  | synthChunk (i totalChunks : Nat) (chunk : String) (outcome : Option (Option ℚ))
  | stopCall
deriving Repr

/-- Run an interleaving of synthesis-loop iterations and `stopPlayback` calls,
collecting the emitted events. -/
def runLoad (speed : ℚ) : List LoadAct → PlayState → PlayState × List Event
  | [], s => (s, [])
  | LoadAct.synthChunk i n chunk outcome :: rest, s =>
    let step := chunkStep speed i n chunk outcome s
    let restRun := runLoad speed rest step.1
    (restRun.1, step.2 ++ restRun.2)
  | LoadAct.stopCall :: rest, s =>
    let step := stopPlayback s
    let restRun := runLoad speed rest step.1
    (restRun.1, step.2 ++ restRun.2)

/-! ## Retry helper (`retryWithBackoff`, src/performance_optimization.ts)

`retryWithBackoff(operation, maxRetries, retryDelay)` runs
`for (attempt = 0; attempt <= maxRetries; attempt++)`, returning the first
successful result; on failure it waits
`retryDelay * 2 ** attempt + Math.floor(Math.random() * 100)` whenever further
attempts remain (recording a retry in the performance metrics when
`config.logPerformanceMetrics` is set), and throws the last error once all
attempts are exhausted.  The defaults are `config.maxRetries = 3` and
`config.retryDelay = 1000`.  The operation is an oracle from the attempt
number to a result, and the jitter an oracle from the attempt number to the
sampled `Math.floor(Math.random() * 100)`. -/

/-- Outcome of a `retryWithBackoff` run: the settled result, how many times the
operation was invoked, how many retries the performance tracker recorded, and
the successive backoff delays waited. -/
structure RetryTrace (ε α : Type) where
  result : Except ε α
  attempts : Nat
  retriesRecorded : Nat
  delays : List Nat

/-- The retry loop from attempt `attempt` with `remaining` further attempts
allowed after the current one. -/
def retryGo (op : Nat → Except ε α) (retryDelay : Nat) (jitter : Nat → Nat)
    (logMetrics : Bool) : Nat → Nat → RetryTrace ε α
  | attempt, remaining =>
    match op attempt with
    | Except.ok v => ⟨Except.ok v, 1, 0, []⟩
    | Except.error e =>
      match remaining with
      | 0 => ⟨Except.error e, 1, 0, []⟩
      | r + 1 =>
        let delay := retryDelay * 2 ^ attempt + jitter attempt
        let rest := retryGo op retryDelay jitter logMetrics (attempt + 1) r
        ⟨rest.result, rest.attempts + 1,
         rest.retriesRecorded + (if logMetrics then 1 else 0),
         delay :: rest.delays⟩

/-- Source `retryWithBackoff`. -/
def retryWithBackoff (op : Nat → Except ε α) (maxRetries retryDelay : Nat)
    (jitter : Nat → Nat) (logMetrics : Bool) : RetryTrace ε α :=
  retryGo op retryDelay jitter logMetrics 0 maxRetries

/-- The error taxonomy of spec §4.3 for synthesis calls; `retryWithBackoff`
itself is generic in the error type and never inspects it. -/
inductive SynthError where
  | authError
  | quotaError
  | apiError (status : Nat)
  | networkError
deriving DecidableEq, Repr

/-- The backoff delays the source would wait for `count` consecutive failing
attempts starting at attempt number `start`: the source formula
`retryDelay * 2 ** attempt + jitter` at successive attempt numbers. -/
def expectedDelays (retryDelay : Nat) (jitter : Nat → Nat) (start : Nat) : Nat → List Nat
  | 0 => []
  | count + 1 => (retryDelay * 2 ^ start + jitter start) :: expectedDelays retryDelay jitter (start + 1) count

/-- The partition shape claimed for a playback queue with the given
accumulated total duration: adjacent chunks meet exactly
(`endTime = next.startTime`), the first chunk starts at time 0, every chunk's
time interval is non-degenerate in the right direction, and the accumulated
total equals the last chunk's `endTime` (0 for an empty queue). -/
def QueuePartition (q : List AudioChunk) (total : ℚ) : Prop :=
  List.Chain' (fun a b => a.endTime = b.startTime) q
  ∧ (∀ c, q.head? = some c → c.startTime = 0)
  ∧ (∀ c ∈ q, c.startTime ≤ c.endTime)
  ∧ total = (q.getLast?).elim 0 AudioChunk.endTime

/-- The `Idle` playback state (fresh service worker). -/
def idlePlayState : PlayState :=
  { audioQueue := [], isPlayingQueue := false, currentChunkIndex := 0,
    totalDuration := 0, currentTime := 0, currentAudioSome := false }

/-! ## Concrete scenario inputs used by the claim theorems -/

/-- C4.  The inserted requests of the two scenarios. -/
def reqA : SetReq := ⟨"A", "voice-1", 1, "audio-A"⟩

/-- C4 (and C10). -/
def reqB : SetReq := ⟨"B", "voice-1", 1, "audio-B"⟩

/-- C4 (and C10). -/
def reqC : SetReq := ⟨"C", "voice-1", 1, "audio-C"⟩

/-- Eleven distinct single-character requests, for the capacity-10 scenario. -/
def reqs11 : List SetReq :=
  ["0", "1", "2", "3", "4", "5", "6", "7", "8", "9", "t"].map
    (fun t => ⟨t, "voice-1", 1, "audio"⟩)

/-- The single entry of the C10 witness cache. -/
def c10Item : CachedAudio :=
  { audioContent := "bytes", timestamp := 0, voice := "v", speed := 1,
    textHash := hashText "x" }

/-- A concrete one-entry cache for the C10 witness. -/
def c10WitnessState : CacheState :=
  ⟨[(generateKey "x" "v" 1, c10Item)], 100, 86400000, 0, 0, 1, 0⟩

/-- The C10 scenario: capacity 2; A stored at time 0, B at time 1, A read
three times at time 2, then C stored at time 2 (which triggers the capacity
cleanup). -/
def c10Final : CacheState :=
  set 2 reqC.text reqC.voice reqC.speed reqC.content
    ((get 2 reqA.text reqA.voice reqA.speed
      ((get 2 reqA.text reqA.voice reqA.speed
        ((get 2 reqA.text reqA.voice reqA.speed
          (set 1 reqB.text reqB.voice reqB.speed reqB.content
            (set 0 reqA.text reqA.voice reqA.speed reqA.content
              (initCache 2 0)))).2)).2)).2)

/-- A mid-playback state used to exhibit what `stopPlayback` leaves behind. -/
def c6State : PlayState :=
  { audioQueue := [{ text := "x", startTime := 0, endTime := 1, isPlaying := false }],
    isPlayingQueue := true, currentChunkIndex := 2, totalDuration := 7,
    currentTime := 5, currentAudioSome := true }

/-- The C3 interleaving: the synthesis loop completes chunk 0, a `stopReading`
message is handled at the `await` boundary, then the loop (which never checks
for cancellation) completes chunk 1, and `synthesizeAndPlay`'s tail runs. -/
def c3Acts : List LoadAct :=
  [LoadAct.synthChunk 0 2 "A" (some (some 1)), LoadAct.stopCall,
   LoadAct.synthChunk 1 2 "B" (some (some 2))]

/-- Final state and events of the C3 interleaving. -/
def c3Run : PlayState × List Event :=
  let mid := runLoad 1 c3Acts (resetForRead (stopPlayback idlePlayState).1)
  let fin := finishLoad mid.1
  (fin.1, mid.2 ++ fin.2)

/-- First sentence of the two-chunk input: 2400 `'a'`s and a period. -/
def bigSentA : String := String.mk (List.replicate 2400 'a' ++ ['.'])

/-- Second sentence of the two-chunk input: 2400 `'B'`s. -/
def bigSentB : String := String.mk (List.replicate 2400 'B')

/-- The 4801-unit input text `aaa…a.BBB…B` (sentence boundary before the
capital `B`s). -/
def bigText : String :=
  String.mk (List.replicate 2400 'a' ++ '.' :: List.replicate 2400 'B')

/-- Value of `bigText.substring(0, 50)`, the API-key test text for `bigText`. -/
def testPrefix : String := String.mk (List.replicate 50 'a')

/-- A string containing no JavaScript whitespace: a single unsplittable
"word" in the chunker's sense. -/
def hasNoWs (s : String) : Bool :=
  s.data.all fun ch => !isJsWs ch

/-- The guarantee each emitted chunk actually satisfies: its length stays
within `maxBytes + 1` (the joining space is not counted by the source's
overflow check), or it is a single whitespace-free word (left unsplit even
when longer than `maxBytes`). -/
def ChunkOk (maxBytes : Nat) (c : String) : Prop :=
  c.length ≤ maxBytes + 1 ∨ hasNoWs c = true


/-! ## Association-list lemmas for the cache `Map` -/

theorem mapLookup_mapSet_self (k : CacheKey) (v : CachedAudio)
    (l : List (CacheKey × CachedAudio)) : mapLookup k (mapSet k v l) = some v := by
  induction l with
  | nil => simp [mapSet, mapLookup]
  | cons e rest ih =>
    by_cases h : e.1 = k
    · simp [mapSet, h, mapLookup]
    · simp [mapSet, h, mapLookup, ih]

theorem mapLookup_eq_none (k : CacheKey) (l : List (CacheKey × CachedAudio))
    (h : k ∉ l.map Prod.fst) : mapLookup k l = none := by
  induction l with
  | nil => rfl
  | cons e rest ih =>
    simp only [List.map_cons, List.mem_cons, not_or] at h
    have : ¬ e.1 = k := fun hk => h.1 hk.symm
    simp [mapLookup, this, ih h.2]

theorem mapSet_append (k : CacheKey) (v : CachedAudio)
    (l : List (CacheKey × CachedAudio)) (h : k ∉ l.map Prod.fst) :
    mapSet k v l = l ++ [(k, v)] := by
  induction l with
  | nil => rfl
  | cons e rest ih =>
    simp only [List.map_cons, List.mem_cons, not_or] at h
    have : ¬ e.1 = k := fun hk => h.1 hk.symm
    simp [mapSet, this, ih h.2]

theorem foldl_mapDelete_take (l : List (CacheKey × CachedAudio)) (n : Nat)
    (h : (l.map Prod.fst).Nodup) :
    ((l.take n).map Prod.fst).foldl (fun c k => mapDelete k c) l = l.drop n := by
  induction l generalizing n with
  | nil => simp
  | cons e rest ih =>
    cases n with
    | zero => simp
    | succ m =>
      simp only [List.map_cons, List.nodup_cons] at h
      have hdel : mapDelete e.1 (e :: rest) = rest := by simp [mapDelete]
      simp only [List.take_succ_cons, List.map_cons, List.foldl_cons, hdel,
        List.drop_succ_cons]
      exact ih m h.2

theorem insertByTs_const (e : CacheKey × CachedAudio)
    (l : List (CacheKey × CachedAudio)) (t : Nat) (he : e.2.timestamp = t)
    (hl : ∀ f ∈ l, f.2.timestamp = t) : insertByTs e l = e :: l := by
  cases l with
  | nil => rfl
  | cons f rest =>
    have : e.2.timestamp ≤ f.2.timestamp := by
      rw [he, hl f (List.mem_cons_self f rest)]
    simp [insertByTs, this]

/-- A stable sort by timestamp leaves a list with all-equal timestamps
unchanged. -/
theorem sortByTimestamp_const (l : List (CacheKey × CachedAudio)) (t : Nat)
    (hl : ∀ f ∈ l, f.2.timestamp = t) : sortByTimestamp l = l := by
  induction l with
  | nil => rfl
  | cons e rest ih =>
    have hrest : ∀ f ∈ rest, f.2.timestamp = t := fun f hf =>
      hl f (List.mem_cons_of_mem e hf)
    rw [sortByTimestamp, ih hrest,
      insertByTs_const e rest t (hl e (List.mem_cons_self e rest)) hrest]

/-- The `cleanup` pass is the identity while the hourly interval has not elapsed and the
cache is below capacity. -/
theorem cleanup_early (now : Nat) (s : CacheState)
    (h1 : now - s.lastCleanup < hourInMs) (h2 : s.cache.length < s.maxCacheSize) :
    cleanup now s = s := by
  simp [cleanup, h1, h2]

/-- A `set` below capacity (within the cleanup interval) on a key not yet
present appends the new entry and bumps the size statistic. -/
theorem set_under_capacity (now : Nat) (text voice : String) (speed : ℚ)
    (content : String) (s : CacheState)
    (h1 : now - s.lastCleanup < hourInMs) (h2 : s.cache.length < s.maxCacheSize)
    (hkey : generateKey text voice speed ∉ s.cache.map Prod.fst) :
    set now text voice speed content s =
      { s with
          cache := s.cache ++ [(generateKey text voice speed,
            { audioContent := content, timestamp := now, voice := voice,
              speed := speed, textHash := hashText text })],
          size := s.cache.length + 1 } := by
  rw [set, cleanup_early now s h1 h2, mapSet_append _ _ _ hkey]
  simp

theorem entry_fst (t0 : Nat) (r : SetReq) : (SetReq.entry t0 r).1 = r.key := rfl

theorem map_fst_entry (t0 : Nat) (reqs : List SetReq) :
    (reqs.map (SetReq.entry t0)).map Prod.fst = reqs.map SetReq.key := by
  rw [List.map_map]
  rfl

/-- Filling an `AudioCache` whose current contents are the entries for `pre`
with further distinct-key requests, while the total stays within capacity,
appends each entry in order (every `cleanup` pass returns early). -/
theorem insertAll_fill (t0 : Nat) (reqs : List SetReq) :
    ∀ (pre : List SetReq) (M A h m z : Nat),
    pre.length + reqs.length ≤ M →
    ((pre ++ reqs).map SetReq.key).Nodup →
    ∃ z', insertAll t0 reqs
        ⟨pre.map (SetReq.entry t0), M, A, h, m, z, t0⟩ =
      ⟨(pre ++ reqs).map (SetReq.entry t0), M, A, h, m, z', t0⟩ := by
  induction reqs with
  | nil => exact fun pre M A h m z _ _ => ⟨z, by simp [insertAll]⟩
  | cons r rs ih =>
    intro pre M A h m z hlen hnodup
    have hlen' : pre.length + rs.length + 1 ≤ M := by
      simp only [List.length_cons] at hlen
      omega
    have hkey : r.key ∉ pre.map SetReq.key := by
      rw [List.map_append] at hnodup
      have hdisj := List.nodup_append.mp hnodup
      intro hmem
      exact hdisj.2.2 hmem (by simp)
    have hstep :
        set t0 r.text r.voice r.speed r.content
          ⟨pre.map (SetReq.entry t0), M, A, h, m, z, t0⟩ =
        ⟨(pre ++ [r]).map (SetReq.entry t0), M, A, h, m, pre.length + 1, t0⟩ := by
      rw [set_under_capacity]
      · simp [SetReq.entry, SetReq.key]
      · simp [hourInMs]
      · simp only [List.length_map]
        omega
      · rw [map_fst_entry]
        exact hkey
    have hrec := ih (pre ++ [r]) M A h m (pre.length + 1)
      (by simp only [List.length_append, List.length_cons, List.length_nil]; omega)
      (by simpa using hnodup)
    obtain ⟨z', hz⟩ := hrec
    refine ⟨z', ?_⟩
    have hfold : insertAll t0 (r :: rs)
        ⟨pre.map (SetReq.entry t0), M, A, h, m, z, t0⟩ =
      insertAll t0 rs (set t0 r.text r.voice r.speed r.content
        ⟨pre.map (SetReq.entry t0), M, A, h, m, z, t0⟩) := rfl
    rw [hfold, hstep, hz]
    simp

/-- A `cleanup` pass at capacity, over entries all created at the current
instant: the oldest `max 1 (maxSize / 5)` entries (here: the first ones, since
the stable sort keeps the creation order of equal timestamps) are evicted and
the age sweep removes nothing. -/
theorem cleanup_at_capacity (now : Nat) (s : CacheState)
    (hcap : s.cache.length ≥ s.maxCacheSize)
    (hts : ∀ f ∈ s.cache, f.2.timestamp = now)
    (hnodup : (s.cache.map Prod.fst).Nodup) :
    cleanup now s =
      { s with
          lastCleanup := now
          cache := s.cache.drop (max 1 (s.maxCacheSize / 5))
          size := s.cache.length - max 1 (s.maxCacheSize / 5) } := by
  have hnotlt : ¬ (now - s.lastCleanup < hourInMs ∧ s.cache.length < s.maxCacheSize) := by
    intro hcon
    omega
  rw [cleanup, if_neg hnotlt]
  simp only [ge_iff_le, hcap, if_true, le_refl]
  rw [sortByTimestamp_const s.cache now hts]
  rw [foldl_mapDelete_take s.cache _ hnodup]
  have hkeep : ∀ f ∈ s.cache.drop (max 1 (s.maxCacheSize / 5)),
      f.2.timestamp = now := fun f hf => hts f (List.mem_of_mem_drop hf)
  have hfilter : (s.cache.drop (max 1 (s.maxCacheSize / 5))).filter
      (fun e => decide (¬ (now - e.2.timestamp > s.maxCacheAge))) =
      s.cache.drop (max 1 (s.maxCacheSize / 5)) := by
    apply List.filter_eq_self.mpr
    intro e he
    rw [hkeep e he]
    simp
  simp only [hfilter, List.length_drop]

/-- A `set` on a full cache of same-instant entries with fresh key: evict the
oldest fifth (at least one), then append the new entry. -/
theorem set_at_capacity (t0 : Nat) (r : SetReq) (pre : List SetReq)
    (M A h m z : Nat) (hlenM : pre.length = M)
    (hnodup : ((pre ++ [r]).map SetReq.key).Nodup) :
    set t0 r.text r.voice r.speed r.content
        ⟨pre.map (SetReq.entry t0), M, A, h, m, z, t0⟩ =
      ⟨(pre.map (SetReq.entry t0)).drop (max 1 (M / 5)) ++ [SetReq.entry t0 r],
        M, A, h, m, (M - max 1 (M / 5)) + 1, t0⟩ := by
  have hnodup' := List.nodup_append.mp (by rw [List.map_append] at hnodup; exact hnodup)
  have hkey : r.key ∉ pre.map SetReq.key := by
    intro hmem
    exact hnodup'.2.2 hmem (by simp)
  have hclean := cleanup_at_capacity t0
    ⟨pre.map (SetReq.entry t0), M, A, h, m, z, t0⟩
    (by simp [hlenM])
    (by
      intro f hf
      obtain ⟨x, _, hx⟩ := List.mem_map.mp hf
      rw [← hx]
      rfl)
    (by rw [map_fst_entry]; exact hnodup'.1)
  rw [set, hclean]
  simp only []
  have hkeydrop : generateKey r.text r.voice r.speed ∉
      ((pre.map (SetReq.entry t0)).drop (max 1 (M / 5))).map Prod.fst := by
    intro hmem
    apply hkey
    have hsub : ((pre.map (SetReq.entry t0)).drop (max 1 (M / 5))).map Prod.fst ⊆
        (pre.map (SetReq.entry t0)).map Prod.fst :=
      List.map_subset _ (List.drop_subset _ _)
    have := hsub hmem
    rw [map_fst_entry] at this
    exact this
  rw [mapSet_append _ _ _ hkeydrop]
  simp only [List.length_append, List.length_drop, List.length_map, hlenM,
    List.length_cons, List.length_nil]
  rfl

/-- Inserting `M + 1` distinct-key entries into a fresh cache of capacity `M`
(all within one cleanup interval): the final `set` triggers the capacity
cleanup, which evicts the `max 1 (M / 5)` oldest entries before inserting. -/
theorem insertAll_evicts (M t0 : Nat) (reqs : List SetReq) (hM : 1 ≤ M)
    (hlen : reqs.length = M + 1) (hnodup : (reqs.map SetReq.key).Nodup) :
    (insertAll t0 reqs (initCache M t0)).cache =
      (reqs.map (SetReq.entry t0)).drop (max 1 (M / 5))
    ∧ (insertAll t0 reqs (initCache M t0)).size = M + 1 - max 1 (M / 5) := by
  obtain ⟨r, hr⟩ : ∃ r, reqs.drop M = [r] := by
    apply List.length_eq_one.mp
    simp [hlen]
  have hsplit : reqs = reqs.take M ++ [r] := by
    conv_lhs => rw [← List.take_append_drop M reqs]
    rw [hr]
  have hlentake : (reqs.take M).length = M := by
    simp [hlen]
  have hnoduptake : ((reqs.take M).map SetReq.key).Nodup :=
    List.Nodup.sublist (List.Sublist.map SetReq.key (List.take_sublist M reqs)) hnodup
  have hinit : initCache M t0 =
      ⟨([] : List SetReq).map (SetReq.entry t0), M, 24 * 60 * 60 * 1000, 0, 0, 0, t0⟩ := rfl
  obtain ⟨z', hz⟩ := insertAll_fill t0 (reqs.take M) [] M (24 * 60 * 60 * 1000) 0 0 0
    (by simp [hlentake]) (by simpa using hnoduptake)
  have hsteps : insertAll t0 reqs (initCache M t0) =
      set t0 r.text r.voice r.speed r.content
        (insertAll t0 (reqs.take M) (initCache M t0)) := by
    conv_lhs => rw [hsplit]
    rw [insertAll, List.foldl_append]
    rfl
  have hnodup2 : ((reqs.take M ++ [r]).map SetReq.key).Nodup := by
    rw [← hsplit]
    exact hnodup
  have hk : max 1 (M / 5) ≤ M :=
    Nat.max_le.mpr ⟨hM, Nat.div_le_self M 5⟩
  rw [hsteps, hinit, hz]
  simp only [List.nil_append]
  rw [set_at_capacity t0 r (reqs.take M) M (24 * 60 * 60 * 1000) 0 0 z' hlentake hnodup2]
  constructor
  · conv_rhs => rw [hsplit]
    rw [List.map_append, List.drop_append_of_le_length (by simp only [List.length_map, hlentake]; exact hk)]
    rfl
  · simp only []
    omega

/-- C4. (corrected).  Inserting `maxSize + 1` distinct-key entries into an
empty cache within one cleanup interval leaves exactly
`maxSize + 1 - max 1 (maxSize / 5)` live entries — not always `maxSize`: the
capacity cleanup evicts the oldest 20% (at least one) — and the evicted
entries are the least-recently-created ones (the surviving keys are the
insertion sequence with its first `max 1 (maxSize / 5)` keys dropped).  For
`maxSize < 10` the evicted batch has size one, so exactly `maxSize` entries
remain; in particular with `maxSize = 2`, after set(A), set(B), set(C) only B
and C remain. -/
theorem C4_theorem (M t0 : Nat) (reqs : List SetReq) (hM : 1 ≤ M)
    (hlen : reqs.length = M + 1) (hnodup : (reqs.map SetReq.key).Nodup) :
    (insertAll t0 reqs (initCache M t0)).cache.map Prod.fst =
      (reqs.map SetReq.key).drop (max 1 (M / 5))
    ∧ (insertAll t0 reqs (initCache M t0)).size = M + 1 - max 1 (M / 5) := by
  obtain ⟨hc, hs⟩ := insertAll_evicts M t0 reqs hM hlen hnodup
  refine ⟨?_, hs⟩
  rw [hc, ← map_fst_entry t0 reqs, List.map_drop]

/-- C4. counterexample to the claim as stated: with `maxSize = 10`,
inserting 11 distinct entries leaves 9 live entries, not `maxSize = 10` — the
capacity cleanup evicts `max 1 (10 / 5) = 2` oldest entries, not one. -/
theorem C4_counterexample :
    (insertAll 0 reqs11 (initCache 10 0)).size = 9 ∧
    ¬ ((insertAll 0 reqs11 (initCache 10 0)).size = 10) := by
  exact ⟨by decide, by decide⟩

/-- C4. witness: the amended statement applied to the concrete
`maxSize = 2` scenario set(A), set(B), set(C); only B and C remain. -/
theorem C4_witness :
    (1 ≤ 2 ∧ ([reqA, reqB, reqC].length = 2 + 1) ∧
      ([reqA, reqB, reqC].map SetReq.key).Nodup) ∧
    (insertAll 0 [reqA, reqB, reqC] (initCache 2 0)).cache.map Prod.fst =
      ([reqA, reqB, reqC].map SetReq.key).drop (max 1 (2 / 5)) ∧
    ([reqA, reqB, reqC].map SetReq.key).drop (max 1 (2 / 5)) =
      [reqB.key, reqC.key] ∧
    (insertAll 0 [reqA, reqB, reqC] (initCache 2 0)).size = 2 + 1 - max 1 (2 / 5) :=
  ⟨⟨by decide, by decide, by decide⟩,
    (C4_theorem 2 0 [reqA, reqB, reqC] (by decide) (by decide) (by decide)).1,
    by decide,
    (C4_theorem 2 0 [reqA, reqB, reqC] (by decide) (by decide) (by decide)).2⟩

/-- A `set` followed by a `get` with the identical key at the same instant returns
the stored bytes (the entry's age is 0, which never exceeds `maxCacheAge`). -/
theorem get_after_set (now : Nat) (text voice : String) (speed : ℚ)
    (content : String) (s : CacheState) :
    (get now text voice speed (set now text voice speed content s)).1 =
      some content := by
  rw [get, set]
  simp only [mapLookup_mapSet_self]
  simp [Nat.sub_self]

/-- C8. (corrected).  A `set` immediately followed by a `get` with the
identical (text, voice, speed) returns the same audio bytes; a request
differing in voice or in speed is always a cache miss, and one differing in
text is a miss provided the two texts' 32-bit rolling hashes differ (texts
with colliding hashes alias to the same cache entry, see the
counterexample). -/
theorem C8_theorem :
    (∀ (now : Nat) (text voice : String) (speed : ℚ) (content : String)
        (s : CacheState),
      (get now text voice speed (set now text voice speed content s)).1 =
        some content)
    ∧ (∀ (t0 : Nat) (text voice text' voice' : String) (speed speed' : ℚ)
          (content : String),
        voice' ≠ voice ∨ speed' ≠ speed ∨ hashText text' ≠ hashText text →
        (get t0 text' voice' speed'
          (set t0 text voice speed content (initCache 100 t0))).1 = none) := by
  constructor
  · exact get_after_set
  · intro t0 text voice text' voice' speed speed' content hdiff
    have hset : set t0 text voice speed content (initCache 100 t0) =
        { initCache 100 t0 with
            cache := [(generateKey text voice speed,
              { audioContent := content, timestamp := t0, voice := voice,
                speed := speed, textHash := hashText text })],
            size := 1 } := by
      rw [set, cleanup_early]
      · rfl
      · simp [initCache, hourInMs]
      · simp [initCache]
    have hkeys : generateKey text' voice' speed' ≠ generateKey text voice speed := by
      intro he
      rw [generateKey, generateKey, Prod.mk.injEq, Prod.mk.injEq] at he
      rcases hdiff with hv | hs | hh
      · exact hv he.1
      · exact hs he.2.1
      · exact hh he.2.2
    rw [hset, get]
    simp only [mapLookup]
    rw [if_neg (fun he => hkeys he.symm)]

/-- C8. counterexample to the claim as stated: the texts `"Aa"` and `"BB"`
differ but have the same 32-bit rolling hash, so after caching audio for
`"Aa"`, a `get` for `"BB"` with the same voice and speed is a cache *hit*
returning the other text's audio — not a miss. -/
theorem C8_counterexample :
    "Aa" ≠ "BB" ∧ hashText "Aa" = hashText "BB" ∧
    (get 0 "BB" "voice-1" 1
      (set 0 "Aa" "voice-1" 1 "audio-of-Aa" (initCache 100 0))).1 =
        some "audio-of-Aa" :=
  ⟨by decide, by decide, by decide⟩

/-- C8. witness: the round trip and a differing-voice miss at concrete
inputs. -/
theorem C8_witness :
    (get 5 "hello" "v" 1 (set 5 "hello" "v" 1 "bytes" (initCache 100 5))).1 =
      some "bytes"
    ∧ (("w" : String) ≠ "v" ∨ (1 : ℚ) ≠ 1 ∨ hashText "hello" ≠ hashText "hello")
    ∧ (get 5 "hello" "w" 1 (set 5 "hello" "v" 1 "bytes" (initCache 100 5))).1 =
        none :=
  ⟨C8_theorem.1 5 "hello" "v" 1 "bytes" (initCache 100 5),
    Or.inl (by decide),
    C8_theorem.2 5 "hello" "v" "hello" "w" 1 1 "bytes" (Or.inl (by decide))⟩

/-- C10. (confirmed).  A `get` on a present, unexpired entry returns the
stored bytes and changes nothing but the hit counter — the cache map
(including every entry's creation timestamp and the entries' order) and the
other statistics are untouched — so eviction order depends only on creation
time: in the concrete scenario, entry A (older, read three times) is evicted
by the capacity cleanup while entry B (newer, never read) survives. -/
theorem C10_theorem :
    (∀ (now : Nat) (text voice : String) (speed : ℚ) (s : CacheState)
        (item : CachedAudio),
      mapLookup (generateKey text voice speed) s.cache = some item →
      now - item.timestamp ≤ s.maxCacheAge →
      get now text voice speed s =
        (some item.audioContent, { s with hits := s.hits + 1 }))
    ∧ c10Final.cache.map Prod.fst = [reqB.key, reqC.key]
    ∧ c10Final.hits = 3 := by
  refine ⟨?_, by decide, by decide⟩
  intro now text voice speed s item hfound hfresh
  rw [get]
  simp only [hfound]
  rw [if_pos hfresh]

/-- C10. witness: the frame property applied to a concrete one-entry cache. -/
theorem C10_witness :
    mapLookup (generateKey "x" "v" 1) c10WitnessState.cache = some c10Item
    ∧ (5 : Nat) - c10Item.timestamp ≤ c10WitnessState.maxCacheAge
    ∧ get 5 "x" "v" 1 c10WitnessState =
        (some c10Item.audioContent,
          { c10WitnessState with hits := c10WitnessState.hits + 1 }) :=
  ⟨by decide, by decide,
    C10_theorem.1 5 "x" "v" 1 c10WitnessState c10Item (by decide) (by decide)⟩

/-! ## Retry helper lemmas (C5) -/

theorem retryGo_attempts_le (op : Nat → Except ε α) (retryDelay : Nat)
    (jitter : Nat → Nat) (logMetrics : Bool) :
    ∀ (remaining attempt : Nat),
      (retryGo op retryDelay jitter logMetrics attempt remaining).attempts ≤
        remaining + 1 := by
  intro remaining
  induction remaining with
  | zero =>
    intro attempt
    rw [retryGo]
    cases op attempt <;> simp
  | succ r ih =>
    intro attempt
    rw [retryGo]
    cases op attempt with
    | ok v => simp
    | error e =>
      simp only []
      have := ih (attempt + 1)
      omega

theorem retryGo_delays (op : Nat → Except ε α) (retryDelay : Nat)
    (jitter : Nat → Nat) (logMetrics : Bool) :
    ∀ (remaining attempt : Nat),
      (retryGo op retryDelay jitter logMetrics attempt remaining).delays =
        expectedDelays retryDelay jitter attempt
          (retryGo op retryDelay jitter logMetrics attempt remaining).delays.length
      ∧ (retryGo op retryDelay jitter logMetrics attempt remaining).delays.length ≤
          remaining := by
  intro remaining
  induction remaining with
  | zero =>
    intro attempt
    rw [retryGo]
    cases op attempt <;> simp [expectedDelays]
  | succ r ih =>
    intro attempt
    rw [retryGo]
    cases op attempt with
    | ok v => simp [expectedDelays]
    | error e =>
      simp only [List.length_cons]
      obtain ⟨hd, hl⟩ := ih (attempt + 1)
      constructor
      · rw [expectedDelays]
        exact congrArg _ hd
      · omega

theorem retryGo_const_error (e : ε) (retryDelay : Nat) (jitter : Nat → Nat)
    (logMetrics : Bool) :
    ∀ (remaining attempt : Nat),
      retryGo (fun _ => (Except.error e : Except ε α)) retryDelay jitter
          logMetrics attempt remaining =
        ⟨Except.error e, remaining + 1, if logMetrics then remaining else 0,
          expectedDelays retryDelay jitter attempt remaining⟩ := by
  intro remaining
  induction remaining with
  | zero =>
    intro attempt
    rw [retryGo]
    simp [expectedDelays]
  | succ r ih =>
    intro attempt
    rw [retryGo]
    simp only [ih (attempt + 1), expectedDelays]
    cases logMetrics <;> simp

/-- C5. (corrected).  The retry helper waits
`delay = retryDelay * 2 ^ attempt + jitter` between attempts and makes at most
`maxRetries` retries (`maxRetries + 1` invocations; the default configuration
is `maxRetries = 3`); however it retries *every* error uniformly — it never
inspects the error, so an operation failing with `AuthError` is retried just
like a transient failure and its error propagates only after the attempts are
exhausted.  An operation failing twice and succeeding on the third attempt
resolves successfully with exactly 2 retries recorded when performance-metric
logging is enabled (the default configuration has logging off, recording 0). -/
theorem C5_theorem :
    (∀ (ε α : Type) (op : Nat → Except ε α) (maxRetries retryDelay : Nat)
        (jitter : Nat → Nat) (logMetrics : Bool),
      (retryWithBackoff op maxRetries retryDelay jitter logMetrics).attempts ≤
        maxRetries + 1
      ∧ (retryWithBackoff op maxRetries retryDelay jitter logMetrics).delays =
          expectedDelays retryDelay jitter 0
            (retryWithBackoff op maxRetries retryDelay jitter logMetrics).delays.length
      ∧ (retryWithBackoff op maxRetries retryDelay jitter
            logMetrics).delays.length ≤ maxRetries)
    ∧ (∀ (ε α : Type) (e : ε) (maxRetries retryDelay : Nat)
          (jitter : Nat → Nat) (logMetrics : Bool),
        retryWithBackoff (fun _ => (Except.error e : Except ε α)) maxRetries
            retryDelay jitter logMetrics =
          ⟨Except.error e, maxRetries + 1, if logMetrics then maxRetries else 0,
            expectedDelays retryDelay jitter 0 maxRetries⟩)
    ∧ (∀ (ε α : Type) (e : ε) (v : α) (retryDelay : Nat) (jitter : Nat → Nat),
        retryWithBackoff
            (fun n => if n < 2 then Except.error e else Except.ok v) 3
            retryDelay jitter true =
          ⟨Except.ok v, 3, 2,
            [retryDelay * 2 ^ 0 + jitter 0, retryDelay * 2 ^ 1 + jitter 1]⟩
        ∧ retryWithBackoff
            (fun n => if n < 2 then Except.error e else Except.ok v) 3
            retryDelay jitter false =
          ⟨Except.ok v, 3, 0,
            [retryDelay * 2 ^ 0 + jitter 0, retryDelay * 2 ^ 1 + jitter 1]⟩) := by
  refine ⟨?_, ?_, ?_⟩
  · intro ε α op maxRetries retryDelay jitter logMetrics
    exact ⟨retryGo_attempts_le op retryDelay jitter logMetrics maxRetries 0,
      (retryGo_delays op retryDelay jitter logMetrics maxRetries 0).1,
      (retryGo_delays op retryDelay jitter logMetrics maxRetries 0).2⟩
  · intro ε α e maxRetries retryDelay jitter logMetrics
    exact retryGo_const_error e retryDelay jitter logMetrics maxRetries 0
  · intro ε α e v retryDelay jitter
    exact ⟨rfl, rfl⟩

/-- C5. counterexample to the claim as stated: an operation that always
fails with `AuthError` is invoked 4 times under the default `maxRetries = 3`
(it is retried 3 times, with backoff delays `[1000, 2000, 4000]` plus jitter),
whereas the claim demands no retry at all (a single invocation with the error
propagating immediately). -/
theorem C5_counterexample :
    (retryWithBackoff
        (fun _ => (Except.error SynthError.authError : Except SynthError String))
        3 1000 (fun _ => 0) true).attempts = 4
    ∧ ¬ ((retryWithBackoff
        (fun _ => (Except.error SynthError.authError : Except SynthError String))
        3 1000 (fun _ => 0) true).attempts = 1)
    ∧ (retryWithBackoff
        (fun _ => (Except.error SynthError.authError : Except SynthError String))
        3 1000 (fun _ => 0) true).delays = [1000, 2000, 4000] :=
  ⟨rfl, by decide, rfl⟩

/-! ## stop() behaviour (C6, C3) -/

/-- C6. (corrected).  `stop()` in any state empties the queue, marks the
queue as not playing, releases the audio handle, and sends exactly one
clear-highlight message (and one `playbackStopped`); but it does *not* reset
the indices and times — `currentChunkIndex`, `currentTime` and `totalDuration`
keep their values and are reset only by the next read request
(`resetForRead`). -/
theorem C6_theorem (s : PlayState) :
    (stopPlayback s).1 =
      { s with isPlayingQueue := false, currentAudioSome := false,
               audioQueue := [] }
    ∧ (stopPlayback s).1.currentChunkIndex = s.currentChunkIndex
    ∧ (stopPlayback s).1.currentTime = s.currentTime
    ∧ (stopPlayback s).1.totalDuration = s.totalDuration
    ∧ ((stopPlayback s).2.countP fun e => e == Event.clearHighlights) = 1
    ∧ (stopPlayback s).2 = [Event.clearHighlights, Event.playbackStopped] :=
  ⟨rfl, rfl, rfl, rfl, rfl, rfl⟩

/-- C6. counterexample to the claim as stated: stopping from a state with
`currentChunkIndex = 2` and `currentTime = 5` leaves both values in place —
the playback indices and times are not reset to zero by `stop()`. -/
theorem C6_counterexample :
    (stopPlayback c6State).1.currentChunkIndex = 2
    ∧ ¬ ((stopPlayback c6State).1.currentChunkIndex = 0)
    ∧ (stopPlayback c6State).1.currentTime = 5
    ∧ ¬ ((stopPlayback c6State).1.currentTime = 0) :=
  ⟨rfl, by decide, rfl, by decide⟩

/-- C3. (corrected).  `stop()` is idempotent on the playback state, but a
`stop()` delivered while the synthesis loop is in flight does *not* abort the
remaining per-chunk work: the loop continues, a chunk whose synthesis
completes after the stop is appended to the (just cleared) queue, and when the
loop finishes `startPlayback` runs again — the stale results are not
discarded and playback restarts. -/
theorem C3_theorem :
    (∀ s : PlayState, (stopPlayback (stopPlayback s).1).1 = (stopPlayback s).1)
    ∧ c3Run.1.audioQueue =
        [{ text := "B", startTime := 1, endTime := 3, isPlaying := false }]
    ∧ c3Run.1.isPlayingQueue = true
    ∧ c3Run.2 =
        [Event.ttsProgress 1 2, Event.apiCall "A",
         Event.clearHighlights, Event.playbackStopped,
         Event.ttsProgress 2 2, Event.apiCall "B",
         Event.playbackStarted 3 1] := by
  refine ⟨fun s => rfl, ?_, rfl, ?_⟩
  · simp [c3Run, c3Acts, runLoad, chunkStep, stopPlayback, resetForRead,
      finishLoad, startPlayback, idlePlayState]
    norm_num
  · simp [c3Run, c3Acts, runLoad, chunkStep, stopPlayback, resetForRead,
      finishLoad, startPlayback, idlePlayState]
    norm_num

/-- C3. counterexample to the claim as stated: in the interleaved run a
synthesis result completing after `stop()` mutates the playback queue (it is
not discarded) and playback restarts. -/
theorem C3_counterexample :
    ¬ (c3Run.1.audioQueue = []) ∧ c3Run.1.isPlayingQueue = true := by
  constructor
  · simp [c3Run, c3Acts, runLoad, chunkStep, stopPlayback, resetForRead,
      finishLoad, startPlayback, idlePlayState]
  · rfl

/-! ## Pipeline event-trace lemmas (C1, C2) -/

/-- The synthesis loop only ever emits progress reports, API requests and
error notices; any event predicate false on those counts zero. -/
theorem synthLoop_countP_zero (speed : ℚ) (n : Nat)
    (synth : Nat → Option (Option ℚ)) (p : Event → Bool)
    (hprog : ∀ a b, p (Event.ttsProgress a b) = false)
    (hapi : ∀ t, p (Event.apiCall t) = false)
    (herr : p Event.ttsError = false) :
    ∀ (chunks : List String) (i : Nat) (s : PlayState),
      ((synthLoop speed n synth chunks i s).2.countP p) = 0 := by
  intro chunks
  induction chunks with
  | nil => intro i s; simp [synthLoop]
  | cons c rest ih =>
    intro i s
    rw [synthLoop]
    simp only [List.countP_append]
    rw [ih (i + 1)]
    simp only [chunkStep]
    by_cases hc : c = ""
    · simp [hc, List.countP_cons, hprog, herr]
    · cases houtcome : synth i with
      | none => simp [hc, houtcome, List.countP_cons, hprog, hapi, herr]
      | some m => simp [hc, houtcome, List.countP_cons, hprog, hapi]

/-- The tail of the loader emits exactly one event (`playbackStarted`, a
warning, or an error). -/
theorem finishLoad_events_single (s : PlayState) :
    ∃ ev, (finishLoad s).2 = [ev] := by
  rw [finishLoad, startPlayback]
  by_cases h : s.audioQueue.length > 0
  · rw [if_pos h, if_neg (by omega)]
    exact ⟨_, rfl⟩
  · rw [if_neg h]
    exact ⟨_, rfl⟩

/-- Generic counting over a full `synthesizeAndPlay` run, for predicates false
on every event the pipeline can emit except possibly `playbackStarted` and
`ttsWarning` (those only occur as the single final event). -/
theorem synthesizeAndPlay_countP_zero (p : Event → Bool)
    (hprog : ∀ a b, p (Event.ttsProgress a b) = false)
    (hapi : ∀ t, p (Event.apiCall t) = false)
    (herr : p Event.ttsError = false)
    (_hwarn : p Event.ttsWarning = false)
    (hstart : ∀ d n, p (Event.playbackStarted d n) = false)
    (hstop : p Event.playbackStopped = false)
    (hclear : p Event.clearHighlights = false) :
    ∀ (text voice : String) (speed : ℚ) (apiKeySet testOk : Bool)
      (synth : Nat → Option (Option ℚ)) (s : PlayState),
      ((synthesizeAndPlay text voice speed apiKeySet testOk synth s).2.countP p)
        = 0 := by
  intro text voice speed apiKeySet testOk synth s
  rw [synthesizeAndPlay]
  by_cases h1 : text = ""
  · simp [h1, List.countP_cons, herr]
  · rw [if_neg h1]
    by_cases h2 : voice = ""
    · simp [h2, List.countP_cons, herr]
    · rw [if_neg h2]
      by_cases h3 : apiKeySet
      · rw [if_neg (by simpa using h3)]
        by_cases h4 : testOk
        · rw [if_neg (by simpa using h4)]
          by_cases h5 : (splitTextIntoChunks text).length = 0
          · simp [h5, stopPlayback, List.countP_cons, List.countP_append,
              hclear, hstop, hapi, herr]
          · rw [if_neg h5]
            simp only [List.countP_append]
            rw [synthLoop_countP_zero speed _ synth p hprog hapi herr]
            obtain ⟨ev, hev⟩ := finishLoad_events_single
              (synthLoop speed (splitTextIntoChunks text).length synth
                (splitTextIntoChunks text) 0
                (resetForRead (stopPlayback s).1)).1
            have hfin : ((finishLoad
                (synthLoop speed (splitTextIntoChunks text).length synth
                  (splitTextIntoChunks text) 0
                  (resetForRead (stopPlayback s).1)).1).2.countP p) = 0 := by
              rw [finishLoad, startPlayback] at hev ⊢
              by_cases h6 : (synthLoop speed (splitTextIntoChunks text).length
                  synth (splitTextIntoChunks text) 0
                  (resetForRead (stopPlayback s).1)).1.audioQueue.length > 0
              · rw [if_pos h6, if_neg (by omega)]
                simp [List.countP_cons, hstart]
              · rw [if_neg h6]
                simp [List.countP_cons, herr]
            rw [hfin]
            simp [stopPlayback, List.countP_cons, hclear, hstop, hapi]
        · rw [if_pos (by simpa using h4)]
          simp [stopPlayback, List.countP_cons, List.countP_append, hclear,
            hstop, hapi, herr]
      · rw [if_pos (by simpa using h3)]
        simp [List.countP_cons, herr]

/-- C1. (corrected).  The read pipeline never consults or populates the
audio cache: `audioCache` is imported and `callGoogleTTSAPI` even logs
"Cache miss", but neither `audioCache.get` nor `audioCache.set` is ever
invoked on the synthesis path.  And the request `readText("Hi", "voice-1", 1)`
with no cached entry issues exactly *two* synthesis API calls — the API-key
test request on the text plus the single chunk request — performs zero cache
sets, and emits `playbackStarted` with `totalChunks = 1`. -/
theorem C1_theorem :
    (∀ (text voice : String) (speed : ℚ) (apiKeySet testOk : Bool)
        (synth : Nat → Option (Option ℚ)) (s : PlayState),
      ((synthesizeAndPlay text voice speed apiKeySet testOk synth s).2.countP
          fun e => e.isCacheGet) = 0
      ∧ ((synthesizeAndPlay text voice speed apiKeySet testOk synth s).2.countP
          fun e => e.isCacheSet) = 0)
    ∧ (synthesizeAndPlay "Hi" "voice-1" 1 true true (fun _ => some (some 1))
        idlePlayState).2 =
        [Event.clearHighlights, Event.playbackStopped, Event.apiCall "Hi",
         Event.ttsProgress 1 1, Event.apiCall "Hi", Event.playbackStarted 1 1]
    ∧ ((synthesizeAndPlay "Hi" "voice-1" 1 true true (fun _ => some (some 1))
        idlePlayState).2.countP fun e => e.isApiCall) = 2 := by
  refine ⟨?_, ?_, by decide⟩
  · intro text voice speed apiKeySet testOk synth s
    constructor
    · exact synthesizeAndPlay_countP_zero _ (fun _ _ => rfl) (fun _ => rfl) rfl
        rfl (fun _ _ => rfl) rfl rfl text voice speed apiKeySet testOk synth s
    · exact synthesizeAndPlay_countP_zero _ (fun _ _ => rfl) (fun _ => rfl) rfl
        rfl (fun _ _ => rfl) rfl rfl text voice speed apiKeySet testOk synth s

  · have hchunks : splitTextIntoChunks "Hi" = ["Hi"] := by decide
    simp [synthesizeAndPlay, hchunks, stopPlayback, resetForRead, synthLoop,
      chunkStep, finishLoad, startPlayback, idlePlayState]

/-- C1. counterexample to the claim as stated: for
`readText("Hi", "voice-1", 1)` the pipeline makes two synthesis API calls (not
one) and zero cache sets (not one). -/
theorem C1_counterexample :
    ((synthesizeAndPlay "Hi" "voice-1" 1 true true (fun _ => some (some 1))
        idlePlayState).2.countP fun e => e.isApiCall) = 2
    ∧ ¬ (((synthesizeAndPlay "Hi" "voice-1" 1 true true (fun _ => some (some 1))
        idlePlayState).2.countP fun e => e.isApiCall) = 1)
    ∧ ((synthesizeAndPlay "Hi" "voice-1" 1 true true (fun _ => some (some 1))
        idlePlayState).2.countP fun e => e.isCacheSet) = 0
    ∧ ¬ (((synthesizeAndPlay "Hi" "voice-1" 1 true true (fun _ => some (some 1))
        idlePlayState).2.countP fun e => e.isCacheSet) = 1) :=
  ⟨by decide, by decide, by decide, by decide⟩

/-! ## Streaming start (C2)

`MAX_TTS_BYTES = 4800`, so a multi-chunk read needs a text longer than 4800
UTF-16 units; the two-chunk input below is built from character `replicate`s
and evaluated through lemmas rather than by brute-force kernel reduction. -/

theorem markSentencesGo_replicate (c : Char) (hc : isSentencePunct c = false) :
    ∀ (n fuel : Nat) (cs : List Char),
      markSentencesGo (n + fuel) (List.replicate n c ++ cs) =
        List.replicate n c ++ markSentencesGo fuel cs := by
  intro n
  induction n with
  | zero => intro fuel cs; simp
  | succ m ih =>
    intro fuel cs
    have harith : m + 1 + fuel = (m + fuel) + 1 := by omega
    rw [harith, List.replicate_succ, List.cons_append, markSentencesGo, hc]
    simp only [Bool.false_eq_true, if_false, ih fuel cs, List.replicate_succ,
      List.cons_append]

theorem splitOnBarGo_replicate (c : Char) (hc : ¬ c = '|') :
    ∀ (n : Nat) (cs cur : List Char),
      splitOnBarGo (List.replicate n c ++ cs) cur =
        splitOnBarGo cs (List.replicate n c ++ cur) := by
  intro n
  induction n with
  | zero => intro cs cur; simp
  | succ m ih =>
    intro cs cur
    rw [List.replicate_succ, List.cons_append, splitOnBarGo, if_neg hc, ih]
    congr 1
    rw [← List.singleton_append, ← List.append_assoc, ← List.replicate_succ',
      List.replicate_succ, List.cons_append]

theorem bigText_marked :
    markSentences bigText.data =
      List.replicate 2400 'a' ++ '.' :: '|' :: List.replicate 2400 'B' := by
  have hdata : bigText.data =
      List.replicate 2400 'a' ++ '.' :: List.replicate 2400 'B' := rfl
  have hlen : bigText.data.length = 2400 + 2401 := by
    rw [hdata, List.length_append, List.length_cons, List.length_replicate,
      List.length_replicate]
  rw [markSentences, hlen, hdata,
    markSentencesGo_replicate 'a' (by decide) 2400 2401]
  have h1 : markSentencesGo 2401 ('.' :: List.replicate 2400 'B') =
      '.' :: '|' :: List.replicate 2400 'B' := by
    have h2400 : (2401 : Nat) = 2400 + 1 := by omega
    rw [h2400, markSentencesGo]
    have hdrop : (List.replicate 2400 'B').dropWhile (fun a => isJsWs a) =
        'B' :: List.replicate 2399 'B' := by
      rw [List.replicate_succ, List.dropWhile_cons, if_neg (by decide)]
    rw [hdrop, if_pos (by decide)]
    show (if isCapital 'B' = true
        then '.' :: '|' :: markSentencesGo 2400 ('B' :: List.replicate 2399 'B')
        else '.' :: markSentencesGo 2400 (List.replicate 2400 'B')) =
      '.' :: '|' :: List.replicate 2400 'B'
    rw [if_pos (by decide)]
    have hroll : ('B' :: List.replicate 2399 'B') = List.replicate 2400 'B' :=
      (List.replicate_succ 'B' 2399).symm
    rw [hroll]
    have hfin : markSentencesGo 2400 (List.replicate 2400 'B') =
        List.replicate 2400 'B' := by
      have h0 : markSentencesGo 0 ([] : List Char) = [] := rfl
      have hrep := markSentencesGo_replicate 'B' (by decide) 2400 0 []
      rw [h0, List.append_nil, Nat.add_zero] at hrep
      exact hrep
    rw [hfin]
  rw [h1]

theorem bigText_sentences :
    splitOnBar (String.mk (markSentences bigText.data)) =
      [bigSentA, bigSentB] := by
  rw [splitOnBar, bigText_marked]
  show splitOnBarGo (List.replicate 2400 'a' ++
    '.' :: '|' :: List.replicate 2400 'B') [] = [bigSentA, bigSentB]
  rw [splitOnBarGo_replicate 'a' (by decide)]
  rw [splitOnBarGo, if_neg (by decide)]
  rw [splitOnBarGo, if_pos rfl]
  have hrevA : ('.' :: (List.replicate 2400 'a' ++ [])).reverse =
      List.replicate 2400 'a' ++ ['.'] := by
    rw [List.append_nil, List.reverse_cons, List.reverse_replicate]
  have hB : splitOnBarGo (List.replicate 2400 'B') [] =
      [String.mk (List.replicate 2400 'B')] := by
    have h0 : ∀ cur : List Char,
        splitOnBarGo [] cur = [String.mk cur.reverse] := fun cur => rfl
    have hrep := splitOnBarGo_replicate 'B' (by decide) 2400 [] []
    rw [List.append_nil] at hrep
    rw [hrep, h0, List.reverse_replicate]
  rw [hrevA, hB]
  rfl

theorem bigSentA_length : bigSentA.length = 2401 := by
  show (List.replicate 2400 'a' ++ ['.']).length = 2401
  rw [List.length_append, List.length_replicate]
  rfl

theorem bigSentB_length : bigSentB.length = 2400 := by
  show (List.replicate 2400 'B').length = 2400
  rw [List.length_replicate]

theorem bigSentA_ne : ¬ (bigSentA = "") := by
  intro h
  have h2 := congrArg String.length h
  rw [bigSentA_length] at h2
  exact absurd h2 (by decide)

theorem bigSentB_ne : ¬ (bigSentB = "") := by
  intro h
  have h2 := congrArg String.length h
  rw [bigSentB_length] at h2
  exact absurd h2 (by decide)

/-- Evaluating `splitTextIntoChunks` on the 4801-unit text yields the two sentences as
two chunks. -/
theorem bigText_chunks : splitTextIntoChunks bigText = [bigSentA, bigSentB] := by
  have hacc : accumulateSentences 4800 [bigSentA, bigSentB] [] "" =
      [bigSentA, bigSentB] := by
    rw [accumulateSentences,
      if_neg (show ¬ (("" : String).length + bigSentA.length > 4800) by
        rw [bigSentA_length]; decide)]
    have hjoin : (("" : String) ++ (if ("" : String) = "" then "" else " ") ++
        bigSentA) = bigSentA := rfl
    rw [hjoin, accumulateSentences,
      if_pos (show bigSentA.length + bigSentB.length > 4800 by
        rw [bigSentA_length, bigSentB_length]; decide)]
    rw [if_neg bigSentA_ne,
      if_neg (show ¬ (bigSentB.length > 4800) by rw [bigSentB_length]; decide)]
    rw [accumulateSentences, if_neg bigSentB_ne]
    rfl
  show accumulateSentences 4800
    (splitOnBar (String.mk (markSentences bigText.data))) [] "" =
    [bigSentA, bigSentB]
  rw [bigText_sentences, hacc]

theorem bigText_length : bigText.length = 4801 := by
  show (List.replicate 2400 'a' ++ '.' :: List.replicate 2400 'B').length = 4801
  rw [List.length_append, List.length_cons, List.length_replicate,
    List.length_replicate]

theorem bigText_ne : ¬ (bigText = "") := by
  intro h
  have h2 := congrArg String.length h
  rw [bigText_length] at h2
  exact absurd h2 (by decide)

theorem bigText_take50 : String.mk (bigText.data.take 50) = testPrefix := by
  have hdata : bigText.data =
      List.replicate 2400 'a' ++ '.' :: List.replicate 2400 'B' := rfl
  rw [hdata, List.take_append_of_le_length
    (by rw [List.length_replicate]; norm_num), List.take_replicate]
  rfl

/-- C2. (corrected).  Playback does not start once the first chunk is
ready: `playbackStarted` can only be the final event of a
`synthesizeAndPlay` run — the `Loading → Playing` transition happens only
after the synthesis loop over *all* chunks has completed. -/
theorem C2_theorem (text voice : String) (speed : ℚ) (apiKeySet testOk : Bool)
    (synth : Nat → Option (Option ℚ)) (s : PlayState) :
    ((synthesizeAndPlay text voice speed apiKeySet testOk synth
        s).2.dropLast.countP fun e => e.isStarted) = 0
    ∧ ((synthesizeAndPlay text voice speed apiKeySet testOk synth
        s).2.countP fun e => e.isStarted) ≤ 1 := by
  rw [synthesizeAndPlay]
  by_cases h1 : text = ""
  · simp [h1, List.countP_cons, Event.isStarted]
  · rw [if_neg h1]
    by_cases h2 : voice = ""
    · simp [h2, List.countP_cons, Event.isStarted]
    · rw [if_neg h2]
      by_cases h3 : apiKeySet
      · rw [if_neg (by simpa using h3)]
        by_cases h4 : testOk
        · rw [if_neg (by simpa using h4)]
          by_cases h5 : (splitTextIntoChunks text).length = 0
          · simp [h5, stopPlayback, List.countP_cons, List.countP_append,
              List.dropLast, Event.isStarted]
          · rw [if_neg h5]
            obtain ⟨ev, hev⟩ := finishLoad_events_single
              (synthLoop speed (splitTextIntoChunks text).length synth
                (splitTextIntoChunks text) 0
                (resetForRead (stopPlayback s).1)).1
            have hloop : ((synthLoop speed (splitTextIntoChunks text).length
                synth (splitTextIntoChunks text) 0
                (resetForRead (stopPlayback s).1)).2.countP
                  fun e => e.isStarted) = 0 :=
              synthLoop_countP_zero speed _ synth _ (fun _ _ => rfl)
                (fun _ => rfl) rfl _ _ _
            have hstopev : (stopPlayback s).2 =
                [Event.clearHighlights, Event.playbackStopped] := rfl
            constructor
            · simp only [hev, List.dropLast_concat, List.countP_append, hloop,
                hstopev]
              simp [List.countP_cons, Event.isStarted]
            · simp only [hev, List.countP_append, hloop, hstopev]
              have hone : (List.countP (fun e => e.isStarted) [ev]) ≤ 1 := by
                rw [List.countP_cons, List.countP_nil]
                cases hstarted : ev.isStarted <;> simp
              simp [List.countP_cons, Event.isStarted] at hone ⊢
              omega
        · rw [if_pos (by simpa using h4)]
          simp [stopPlayback, List.countP_cons, List.countP_append,
            List.dropLast, Event.isStarted]
      · rw [if_pos (by simpa using h3)]
        simp [List.countP_cons, Event.isStarted]

/-- C2. counterexample to the claim as stated: for the two-chunk input
`bigText` both chunks synthesize successfully, the queue is already non-empty
after the first chunk completes, and yet `playbackStarted` is emitted only
after the second chunk's API call — the full trace ends
`…, apiCall bigSentB, playbackStarted 2 2`. -/
theorem C2_counterexample :
    splitTextIntoChunks bigText = [bigSentA, bigSentB]
    ∧ (synthLoop 1 2 (fun _ => some (some 1)) [bigSentA] 0
        (resetForRead (stopPlayback idlePlayState).1)).1.audioQueue ≠ []
    ∧ (synthesizeAndPlay bigText "voice-1" 1 true true (fun _ => some (some 1))
        idlePlayState).2 =
      [Event.clearHighlights, Event.playbackStopped, Event.apiCall testPrefix,
       Event.ttsProgress 1 2, Event.apiCall bigSentA,
       Event.ttsProgress 2 2, Event.apiCall bigSentB,
       Event.playbackStarted 2 2] := by
  refine ⟨bigText_chunks, ?_, ?_⟩
  · simp [synthLoop, chunkStep, bigSentA_ne, stopPlayback, resetForRead,
      idlePlayState]
  · simp only [synthesizeAndPlay, bigText_length, bigText_take50,
      bigText_chunks, bigText_ne, stopPlayback, resetForRead, idlePlayState,
      not_false_eq_true, if_false, if_true, ite_true, ite_false, reduceIte,
      Nat.reduceGT, gt_iff_lt]
    rw [if_neg (show ¬ (("voice-1" : String) = "") by decide)]
    simp only [synthLoop, chunkStep, bigSentA_ne, bigSentB_ne,
      not_false_eq_true, if_false, ite_false, reduceIte]
    simp only [finishLoad, startPlayback]
    norm_num

/-! ## Chunker guarantees (C7) -/

theorem empty_string_length : ("" : String).length = 0 := rfl

theorem space_string_length : (" " : String).length = 1 := rfl

/-- Every segment produced by `jsSplitWs` is whitespace-free. -/
theorem jsSplitWsGo_noWs :
    ∀ (fuel : Nat) (cs cur : List Char),
      cur.all (fun ch => !isJsWs ch) = true →
      ∀ w ∈ jsSplitWsGo fuel cs cur, hasNoWs w = true := by
  intro fuel
  induction fuel with
  | zero =>
    intro cs cur hcur w hw
    rw [jsSplitWsGo] at hw
    rw [List.mem_singleton] at hw
    subst hw
    rw [hasNoWs]
    simpa using hcur
  | succ f ih =>
    intro cs cur hcur w hw
    cases cs with
    | nil =>
      have heq : jsSplitWsGo (f + 1) [] cur = [String.mk cur.reverse] := rfl
      rw [heq, List.mem_singleton] at hw
      subst hw
      rw [hasNoWs]
      simpa using hcur
    | cons c rest =>
      rw [jsSplitWsGo] at hw
      by_cases hc : isJsWs c = true
      · rw [if_pos hc] at hw
        rcases List.mem_cons.mp hw with hw | hw
        · subst hw
          rw [hasNoWs]
          simpa using hcur
        · exact ih _ _ (by simp) w hw
      · rw [if_neg hc] at hw
        refine ih _ _ ?_ w hw
        simp only [List.all_cons, Bool.and_eq_true]
        exact ⟨by simp [hc], hcur⟩

theorem jsSplitWs_noWs (s : String) : ∀ w ∈ jsSplitWs s, hasNoWs w = true :=
  jsSplitWsGo_noWs s.data.length s.data [] (by simp)

/-- Invariant of the word-packing loop: packed chunks stay `ChunkOk` and the
carried buffer is empty, within `maxBytes`, or a single word. -/
theorem packWords_invariant (maxB : Nat) :
    ∀ (words chunks : List String) (cur : String),
      (∀ c ∈ chunks, ChunkOk maxB c) →
      (cur = "" ∨ cur.length ≤ maxB ∨ hasNoWs cur = true) →
      (∀ w ∈ words, hasNoWs w = true) →
      (∀ c ∈ (packWords maxB words chunks cur).1, ChunkOk maxB c)
      ∧ ((packWords maxB words chunks cur).2 = "" ∨
         (packWords maxB words chunks cur).2.length ≤ maxB ∨
         hasNoWs (packWords maxB words chunks cur).2 = true) := by
  intro words
  induction words with
  | nil =>
    intro chunks cur hchunks hcur _
    exact ⟨hchunks, hcur⟩
  | cons w ws ih =>
    intro chunks cur hchunks hcur hwords
    rw [packWords]
    by_cases hover : cur.length + w.length + 1 > maxB
    · rw [if_pos hover]
      apply ih
      · intro c hc
        rcases List.mem_append.mp hc with hc | hc
        · exact hchunks c hc
        · rw [List.mem_singleton] at hc
          subst hc
          rcases hcur with h | h | h
          · subst h
            exact Or.inl (by rw [empty_string_length]; omega)
          · exact Or.inl (by omega)
          · exact Or.inr h
      · exact Or.inr (Or.inr (hwords w (List.mem_cons_self w ws)))
      · intro w' hw'
        exact hwords w' (List.mem_cons_of_mem w hw')
    · rw [if_neg hover]
      apply ih
      · exact hchunks
      · by_cases hc0 : cur = ""
        · subst hc0
          refine Or.inr (Or.inr ?_)
          have hred : (("" : String) ++ (if ("" : String) = "" then "" else " ")
              ++ w) = w := rfl
          rw [hred]
          exact hwords w (List.mem_cons_self w ws)
        · refine Or.inr (Or.inl ?_)
          rw [if_neg hc0, String.length_append, String.length_append,
            space_string_length]
          omega
      · intro w' hw'
        exact hwords w' (List.mem_cons_of_mem w hw')

/-- Invariant of the sentence-accumulation loop. -/
theorem accumulateSentences_invariant (maxB : Nat) :
    ∀ (sentences chunks : List String) (cur : String),
      (∀ c ∈ chunks, ChunkOk maxB c) →
      (cur = "" ∨ cur.length ≤ maxB + 1 ∨ hasNoWs cur = true) →
      ∀ c ∈ accumulateSentences maxB sentences chunks cur, ChunkOk maxB c := by
  intro sentences
  induction sentences with
  | nil =>
    intro chunks cur hchunks hcur c hc
    rw [accumulateSentences] at hc
    by_cases hc0 : cur = ""
    · rw [if_pos hc0] at hc
      exact hchunks c hc
    · rw [if_neg hc0] at hc
      rcases List.mem_append.mp hc with hc | hc
      · exact hchunks c hc
      · rw [List.mem_singleton] at hc
        subst hc
        rcases hcur with h | h | h
        · exact absurd h hc0
        · exact Or.inl h
        · exact Or.inr h
  | cons sentence rest ih =>
    intro chunks cur hchunks hcur c hc
    rw [accumulateSentences] at hc
    have hchunks1 : ∀ c' ∈ (if cur = "" then chunks else chunks ++ [cur]),
        ChunkOk maxB c' := by
      by_cases hc0 : cur = ""
      · rw [if_pos hc0]
        exact hchunks
      · rw [if_neg hc0]
        intro c' hc'
        rcases List.mem_append.mp hc' with hc' | hc'
        · exact hchunks c' hc'
        · rw [List.mem_singleton] at hc'
          subst hc'
          rcases hcur with h | h | h
          · exact absurd h hc0
          · exact Or.inl h
          · exact Or.inr h
    by_cases hover : cur.length + sentence.length > maxB
    · rw [if_pos hover] at hc
      by_cases hbig : sentence.length > maxB
      · rw [if_pos hbig] at hc
        obtain ⟨hpack1, hpack2⟩ := packWords_invariant maxB
          (jsSplitWs sentence) (if cur = "" then chunks else chunks ++ [cur])
          "" hchunks1 (Or.inl rfl) (jsSplitWs_noWs sentence)
        refine ih _ _ hpack1 ?_ c hc
        rcases hpack2 with h | h | h
        · exact Or.inl h
        · exact Or.inr (Or.inl (by omega))
        · exact Or.inr (Or.inr h)
      · rw [if_neg hbig] at hc
        exact ih _ _ hchunks1 (Or.inr (Or.inl (by omega))) c hc
    · rw [if_neg hover] at hc
      refine ih _ _ hchunks ?_ c hc
      by_cases hc0 : cur = ""
      · subst hc0
        have hred : (("" : String) ++ (if ("" : String) = "" then "" else " ")
            ++ sentence) = sentence := rfl
        rw [hred]
        refine Or.inr (Or.inl ?_)
        rw [empty_string_length] at hover
        omega
      · refine Or.inr (Or.inl ?_)
        rw [if_neg hc0, String.length_append, String.length_append,
          space_string_length]
        omega

/-- C7. (corrected).  Every chunk the chunker emits either has length at
most `maxBytes + 1` (the greedy check ignores the joining space, so merged
chunks can exceed `maxBytes` by exactly one) or contains no whitespace at all
(a single unsplittable word, left unsplit in its own chunk); a zero-length
chunk *can* be emitted (immediately before an oversized word); and empty
input yields zero chunks. -/
theorem C7_theorem :
    (∀ (maxBytes : Nat) (text c : String),
      c ∈ splitTextIntoChunksGen maxBytes text →
      c.length ≤ maxBytes + 1 ∨ hasNoWs c = true)
    ∧ (∀ maxBytes : Nat, splitTextIntoChunksGen maxBytes "" = []) := by
  constructor
  · intro maxBytes text c hc
    exact accumulateSentences_invariant maxBytes _ [] ""
      (by intro c' hc'; cases hc') (Or.inl rfl) c hc
  · intro maxBytes
    show accumulateSentences maxBytes
      (splitOnBar (String.mk (markSentences ("" : String).data))) [] "" = []
    have hsent : splitOnBar (String.mk (markSentences ("" : String).data)) =
        [""] := rfl
    rw [hsent, accumulateSentences,
      if_neg (show ¬ (("" : String).length + ("" : String).length > maxBytes) by
        rw [empty_string_length]; omega)]
    have hred : (("" : String) ++ (if ("" : String) = "" then "" else " ")
        ++ "") = "" := rfl
    rw [hred, accumulateSentences, if_pos rfl]

/-- C7. counterexample to the claim as stated: with `maxBytes = 3` the
single oversized word `"aaaaa"` makes the chunker emit a zero-length chunk
(the claim says zero-length chunks are never emitted), and with
`maxBytes = 5` the input `"Ab.Cd"` — whose words all fit — produces the chunk
`"Ab. Cd"` of length 6 > 5 although no single word exceeds `maxBytes` (the
joining space is not counted by the overflow check). -/
theorem C7_counterexample :
    splitTextIntoChunksGen 3 "aaaaa" = ["", "aaaaa"]
    ∧ ("" : String).length = 0
    ∧ splitTextIntoChunksGen 5 "Ab.Cd" = ["Ab. Cd"]
    ∧ ("Ab. Cd" : String).length = 6
    ∧ (∀ w ∈ jsSplitWs "Ab. Cd", w.length ≤ 5) :=
  ⟨by decide, rfl, by decide, rfl, by decide⟩

/-- C7. witness: the amended bound applied to the oversized-word chunk. -/
theorem C7_witness :
    ("aaaaa" ∈ splitTextIntoChunksGen 3 "aaaaa")
    ∧ (("aaaaa" : String).length ≤ 3 + 1 ∨ hasNoWs "aaaaa" = true) :=
  ⟨by decide, C7_theorem.1 3 "aaaaa" "aaaaa" (by decide)⟩

/-! ## Queue timeline partition (C9) -/

theorem estimateDuration_nonneg (chunk : String) (speed : ℚ) (h : 0 < speed) :
    0 ≤ estimateDuration chunk speed :=
  div_nonneg (mul_nonneg (Nat.cast_nonneg _) (by norm_num)) (le_of_lt h)

theorem queuePartition_nil : QueuePartition [] 0 := by
  refine ⟨List.chain'_nil, ?_, ?_, rfl⟩
  · intro c h
    simp at h
  · intro c h
    simp at h

/-- One loop iteration preserves the timeline-partition invariant: the new
chunk starts exactly at the accumulated total and extends it by its
(non-negative) duration. -/
theorem chunkStep_partition (speed : ℚ) (i n : Nat) (chunk : String)
    (outcome : Option (Option ℚ)) (s : PlayState) (hspeed : 0 < speed)
    (hdur : ∀ d, outcome = some (some d) → 0 ≤ d)
    (hs : QueuePartition s.audioQueue s.totalDuration) :
    QueuePartition (chunkStep speed i n chunk outcome s).1.audioQueue
      (chunkStep speed i n chunk outcome s).1.totalDuration := by
  simp only [chunkStep]
  by_cases hc : chunk = ""
  · rw [if_pos hc]
    exact hs
  · rw [if_neg hc]
    cases outcome with
    | none => exact hs
    | some measured =>
      simp only []
      obtain ⟨hchain, hhead, hmono, htotal⟩ := hs
      have hd : 0 ≤ (match measured with
          | some d0 => d0
          | none => estimateDuration chunk speed) := by
        cases measured with
        | some d0 => exact hdur d0 rfl
        | none => exact estimateDuration_nonneg chunk speed hspeed
      refine ⟨?_, ?_, ?_, ?_⟩
      · rw [List.chain'_append]
        refine ⟨hchain, List.chain'_singleton _, ?_⟩
        intro x hx y hy
        rw [Option.mem_def] at hx hy
        simp only [List.head?_cons, Option.some.injEq] at hy
        subst hy
        show x.endTime = s.totalDuration
        rw [htotal, hx]
        rfl
      · intro c' hc'
        cases hq : s.audioQueue with
        | nil =>
          rw [hq] at hc'
          simp only [List.nil_append, List.head?_cons, Option.some.injEq] at hc'
          subst hc'
          rw [htotal, hq]
          rfl
        | cons a q' =>
          rw [hq] at hc'
          simp only [List.cons_append, List.head?_cons, Option.some.injEq] at hc'
          subst hc'
          exact hhead a (by rw [hq]; rfl)
      · intro c' hc'
        rcases List.mem_append.mp hc' with h | h
        · exact hmono c' h
        · rw [List.mem_singleton] at h
          subst h
          exact le_add_of_nonneg_right hd
      · rw [List.getLast?_concat]
        rfl

/-- The whole synthesis loop preserves the partition invariant. -/
theorem synthLoop_partition (speed : ℚ) (n : Nat)
    (synth : Nat → Option (Option ℚ)) (hspeed : 0 < speed)
    (hdur : ∀ i d, synth i = some (some d) → 0 ≤ d) :
    ∀ (chunks : List String) (i : Nat) (s : PlayState),
      QueuePartition s.audioQueue s.totalDuration →
      QueuePartition (synthLoop speed n synth chunks i s).1.audioQueue
        (synthLoop speed n synth chunks i s).1.totalDuration := by
  intro chunks
  induction chunks with
  | nil => intro i s hs; exact hs
  | cons c rest ih =>
    intro i s hs
    rw [synthLoop]
    exact ih (i + 1) _
      (chunkStep_partition speed i n c (synth i) s hspeed
        (fun d h => hdur i d h) hs)

/-- The `finishLoad` tail (and the `startPlayback` inside it) does not touch the queue
or the accumulated duration. -/
theorem finishLoad_preserves (st : PlayState) :
    (finishLoad st).1.audioQueue = st.audioQueue
    ∧ (finishLoad st).1.totalDuration = st.totalDuration := by
  rw [finishLoad, startPlayback]
  by_cases h : st.audioQueue.length > 0
  · rw [if_pos h, if_neg (by omega)]
    exact ⟨rfl, rfl⟩
  · rw [if_neg h]
    exact ⟨rfl, rfl⟩

/-- C9. (confirmed).  In the audio queue built by a read request
(positive speed, non-negative measured durations), the chunks' start/end
offsets partition the timeline: the first chunk starts at 0, adjacent chunks
meet exactly (`endTime = next.startTime`), every chunk's interval is ordered
(`startTime ≤ endTime`), and the accumulated `totalDuration` equals the last
chunk's `endTime` (chunks whose synthesis failed are skipped without leaving
a gap). -/
theorem C9_theorem (text voice : String) (speed : ℚ)
    (synth : Nat → Option (Option ℚ)) (s : PlayState)
    (htext : ¬ text = "") (hvoice : ¬ voice = "") (hspeed : 0 < speed)
    (hdur : ∀ i d, synth i = some (some d) → 0 ≤ d) :
    QueuePartition
      (synthesizeAndPlay text voice speed true true synth s).1.audioQueue
      (synthesizeAndPlay text voice speed true true synth s).1.totalDuration := by
  rw [synthesizeAndPlay, if_neg htext, if_neg hvoice,
    if_neg (show ¬¬((true : Bool) = true) from fun h => h rfl),
    if_neg (show ¬¬((true : Bool) = true) from fun h => h rfl)]
  have hinit : QueuePartition
      (resetForRead (stopPlayback s).1).audioQueue
      (resetForRead (stopPlayback s).1).totalDuration := queuePartition_nil
  by_cases hlen : (splitTextIntoChunks text).length = 0
  · rw [if_pos hlen]
    exact hinit
  · rw [if_neg hlen]
    simp only []
    rw [(finishLoad_preserves _).1, (finishLoad_preserves _).2]
    exact synthLoop_partition speed _ synth hspeed hdur
      (splitTextIntoChunks text) 0 _ hinit

/-- C9. witness: the partition invariant for the single-chunk request
`readText("Hi", "voice-1", 1)` with a measured duration of 1. -/
theorem C9_witness :
    ¬ (("Hi" : String) = "") ∧ ¬ (("voice-1" : String) = "") ∧ (0 : ℚ) < 1 ∧
    QueuePartition
      (synthesizeAndPlay "Hi" "voice-1" 1 true true (fun _ => some (some 1))
        idlePlayState).1.audioQueue
      (synthesizeAndPlay "Hi" "voice-1" 1 true true (fun _ => some (some 1))
        idlePlayState).1.totalDuration :=
  ⟨by decide, by decide, by norm_num,
    C9_theorem "Hi" "voice-1" 1 (fun _ => some (some 1)) idlePlayState
      (by decide) (by decide) (by norm_num)
      (fun i d h => by
        have h1 : some (some (1 : ℚ)) = some (some d) := h
        have h2 : (1 : ℚ) = d := by
          injection (Option.some.inj h1)
        rw [← h2]
        norm_num)⟩

end TTS
